import Mathlib

/-!
Shallow embedding of the download acquisition and queue-processing pipeline
of the Musox frontend (files: the download manager module, `api.js`, and the
storage module), together with theorems checking the specification's claims
against it.

Network and storage effects are modelled by explicit oracles: a fetch attempt
oracle maps the attempt index to its outcome, resolver sources are `Except`
values, and the persisted queue / track store are explicit state threaded
through the functions.
-/

namespace Musox

/-! ## Retrying fetch client (`fetchWithRetry` in the download manager) -/

/-- Outcome of one raw `fetch` attempt: a network-level throw, a non-2xx
response, or a 2xx response whose fully buffered body has the given size. -/
inductive AttemptResult where
  | netError : AttemptResult
  | httpError (status : Nat) : AttemptResult
  | ok (bodySize : Nat) : AttemptResult
deriving DecidableEq, Repr

/-- `const MINIMUM_FILE_SIZE = 10000` in `fetchWithRetry`. -/
def MINIMUM_FILE_SIZE : Nat := 10000

/-- The terminal error text: `Failed to fetch ${url} after ${retries} attempts.` -/
def fetchFailMsg (url : String) (retries : Nat) : String :=
  "Failed to fetch " ++ url ++ " after " ++ toString retries ++ " attempts."

/-- Trace of one `fetchWithRetry` run: how many attempts were made, how many
inter-attempt delays were awaited, and the result — the successful attempt's
index and body size, or the thrown error message. -/
structure FetchTrace where
  attemptsMade : Nat
  delaysWaited : Nat
  result : Except String (Nat × Nat)
deriving Repr

/-- Whether attempt `i` succeeds: the response is `ok` (2xx) and the buffered
body size is strictly greater than `MINIMUM_FILE_SIZE` (the source checks
`bodyArrayBuffer.byteLength > MINIMUM_FILE_SIZE`). -/
def attemptAccepted : AttemptResult → Bool
  | .ok size => size > MINIMUM_FILE_SIZE
  | _ => false

/-- The loop body of `fetchWithRetry`, from index `i` with `remaining` loop
iterations left (`remaining = retries - i` at every call).  On a failed
attempt the source waits only `if (i < retries - 1)`, i.e. iff `i + 1 < retries`. -/
def fetchAux (o : Nat → AttemptResult) (url : String) (retries : Nat) :
    Nat → Nat → FetchTrace
  | _, 0 => ⟨0, 0, .error (fetchFailMsg url retries)⟩
  | i, remaining + 1 =>
    match o i with
    | .ok size =>
      if size > MINIMUM_FILE_SIZE then
        ⟨1, 0, .ok (i, size)⟩
      else if i + 1 < retries then
        let rest := fetchAux o url retries (i + 1) remaining
        ⟨rest.attemptsMade + 1, rest.delaysWaited + 1, rest.result⟩
      else ⟨1, 0, .error (fetchFailMsg url retries)⟩
    | _ =>
      if i + 1 < retries then
        let rest := fetchAux o url retries (i + 1) remaining
        ⟨rest.attemptsMade + 1, rest.delaysWaited + 1, rest.result⟩
      else ⟨1, 0, .error (fetchFailMsg url retries)⟩

/-- `fetchWithRetry(url, options, retries, delay)`:
run the attempt loop from `i = 0`. -/
def fetchWithRetry (o : Nat → AttemptResult) (url : String) (retries : Nat) :
    FetchTrace :=
  fetchAux o url retries 0 retries

/-- Default `retries = 4` in the source. -/
def defaultRetries : Nat := 4

/-- Default `delay = 4000` milliseconds in the source. -/
def defaultDelayMs : Nat := 4000

/-! ## Multi-source resolver (`getDownloadInfo` in `api.js`)

`getDownloadInfo` races `tryFreeToolServer` and `tryY2Meta` with
`Promise.any` (first success wins; the race fails only when both reject),
then iterates the collected primary results — at loop time the`.then` of the
best-effort "loser" re-invocation has not yet run, so the list holds at most
the race winner — returning the first one; if the list is empty it calls the
Cloudflare worker fallback, and only when that also fails throws
`All download methods failed.`.  Each source's outcome is an oracle. -/

/-- The shape returned by a conversion source (`DownloadCandidate`). -/
structure Candidate where
  source : String
  downloadUrl : String
  durationMs : Nat
deriving DecidableEq, Repr

/-- Outcomes of the three sources for one resolution, plus which primary
settles first when both succeed (`Promise.any` order). -/
structure ResolverOracle where
  freeToolServer : Except String Candidate
  y2Meta : Except String Candidate
  freeToolServerWinsRace : Bool
  fallback : Except String Candidate

/-- The terminal error text thrown by `getDownloadInfo`. -/
def allFailedMsg : String := "All download methods failed."

/-- `getDownloadInfo(videoId)` over the source oracle. -/
def getDownloadInfo (o : ResolverOracle) : Except String Candidate :=
  let primaryResults : List Candidate :=
    match o.freeToolServer, o.y2Meta with
    | .ok c1, .ok c2 => [if o.freeToolServerWinsRace then c1 else c2]
    | .ok c1, .error _ => [c1]
    | .error _, .ok c2 => [c2]
    | .error _, .error _ => []
  match primaryResults with
  | c :: _ => .ok c
  | [] =>
    match o.fallback with
    | .ok d => .ok d
    | .error _ => .error allFailedMsg

/-! ## Persistence collaborator (storage module) -/

/-- JavaScript truthiness of an optional string: `null`/`undefined` and the
empty string are falsy. -/
def jsTruthy (s : Option String) : Bool := s.getD "" ≠ ""

/-- JavaScript truthiness of a string value. -/
def jsTruthyS (s : String) : Bool := s ≠ ""

/-- Queue entry statuses used by the pipeline. -/
inductive QStatus where
  | queued
  | processing
  | failed
deriving DecidableEq, Repr

/-- One persisted download-queue entry (`{...trackData, status, queuedAt}`). -/
structure QueueEntry where
  id : String
  name : String
  status : QStatus
deriving DecidableEq, Repr

/-- The track object handed to `addTrackToDownloadQueue`. -/
structure TrackData where
  id : String
  name : String
deriving DecidableEq, Repr

/-- `addTrackToDownloadQueue(trackData)`: append a `queued` entry unless some
entry with the same id is already in the queue. -/
def addTrackToDownloadQueue (queue : List QueueEntry) (trackData : TrackData) :
    List QueueEntry :=
  if queue.any (fun item => item.id = trackData.id) then queue
  else queue ++ [{ id := trackData.id, name := trackData.name, status := .queued }]

/-- File-system directory constants of the storage module. -/
def SONGS_DIR : String := "musox/songs/"

/-- Thumbnail directory constant. -/
def THUMBNAILS_DIR : String := "musox/thumbnails/"

/-- Lyrics directory constant. -/
def LYRICS_DIR : String := "musox/lyrics/"

/-- Metadata argument of `addDownloadedTrack`. -/
structure TrackMeta where
  id : String
  name : String
  artists : List String
  duration_ms : Nat
deriving Repr

/-- Assets argument of `addDownloadedTrack`: base64 payloads (or `null`) and
the lyrics text. -/
structure TrackAssets where
  songData : Option String
  thumbnailData : Option String
  lrcData : String
deriving Repr

/-- A record of the persisted track database (`StoredTrack`). -/
structure StoredTrack where
  id : String
  name : String
  artists : List String
  duration_ms : Nat
  fileUri : String
  thumbnailUri : Option String
  lrcUri : Option String
  playCount : Nat
  totalPlayTime : Nat
deriving Repr

/-- `addDownloadedTrack(trackMetadata, assets)`: refuse to save without a
track id and song data; otherwise write the asset files and overwrite the
db record for that id, carrying over `playCount`/`totalPlayTime` from any
existing record (`existingTracks[trackId] || \x7bplayCount: 0,
totalPlayTime: 0\x7d`). The track database is modelled as a map from id to
record. -/
def addDownloadedTrack (tracks : String → Option StoredTrack)
    (meta : TrackMeta) (assets : TrackAssets) : String → Option StoredTrack :=
  if jsTruthyS meta.id = false ∨ jsTruthy assets.songData = false then tracks
  else
    let existingStats : Nat × Nat :=
      match tracks meta.id with
      | some t => (t.playCount, t.totalPlayTime)
      | none => (0, 0)
    let newRecord : StoredTrack :=
      { id := meta.id, name := meta.name, artists := meta.artists,
        duration_ms := meta.duration_ms,
        fileUri := SONGS_DIR ++ meta.id ++ ".webm",
        thumbnailUri :=
          if jsTruthy assets.thumbnailData then
            some (THUMBNAILS_DIR ++ meta.id ++ ".png")
          else none,
        lrcUri :=
          if jsTruthyS assets.lrcData then
            some (LYRICS_DIR ++ meta.id ++ ".lrc")
          else none,
        playCount := existingStats.1,
        totalPlayTime := existingStats.2 }
    fun k => if k = meta.id then some newRecord else tracks k

/-! ## Asset acquisition (`_downloadAndSave` in the download manager)

`_downloadAndSave` destructures the track details, fails fast without a
YouTube id, resolves a download URL via `getDownloadInfo`, fetches audio
(4 attempts / 4s), the optional thumbnail (2 attempts / 1s) and lyrics with
`Promise.all`, then writes the assets through `storage.addDownloadedTrack`.
`Promise.all` rejects as soon as any of its promises rejects; the rejection
is re-thrown and caught by the top-level catch, which returns
`{success: false, trackId: id}`. -/

/-- The detailed track object handed to `_downloadAndSave`. -/
structure TrackDetails where
  id : String
  youtubeVideoId : Option String
  spotifySongName : String
  spotifyArtists : List String
  thumbnailId : Option String
deriving Repr

/-- The resolver's answer as consumed by `_downloadAndSave`. -/
structure DlInfo where
  downloadUrl : Option String
  durationMs : Option Nat
deriving Repr

/-- Oracles for one acquisition: the resolver outcome, the audio and
thumbnail fetch attempt outcomes, the lyrics lookup result (`getLyrics`
never throws), and whether the storage write throws. -/
structure AcqOracle where
  dlInfo : Except String DlInfo
  audioAttempts : Nat → AttemptResult
  thumbAttempts : Nat → AttemptResult
  lyrics : Option String
  storeThrows : Bool

/-- The `{success, trackId}` object returned by `_downloadAndSave`. -/
structure DlResult where
  success : Bool
  trackId : String
deriving DecidableEq, Repr

/-- The arguments of the `storage.addDownloadedTrack` call, when reached. -/
structure StoreCall where
  meta : TrackMeta
  assets : TrackAssets
deriving Repr

/-- Observable outcome of one `_downloadAndSave` run: the returned result,
the storage write that completed (if any), and whether any network call was
made. -/
structure AcqOutcome where
  result : DlResult
  store : Option StoreCall
  madeNetworkCall : Bool
deriving Repr

/-- Thumbnail URL built from the Spotify thumbnail id. -/
def thumbnailUrlOf (tid : String) : String := "https://i.scdn.co/image/" ++ tid

/-- Step 4 of `_downloadAndSave`: prepare metadata and save everything.
Payload strings stand in for the base64 blobs (rendered from the fetched
body sizes). -/
def finishSave (td : TrackDetails) (o : AcqOracle) (info : DlInfo)
    (audioSize : Nat) (thumbSize : Option Nat) : AcqOutcome :=
  if o.storeThrows then ⟨⟨false, td.id⟩, none, true⟩
  else
    ⟨⟨true, td.id⟩,
      some ⟨{ id := td.id, name := td.spotifySongName,
              artists := td.spotifyArtists,
              duration_ms := info.durationMs.getD 0 },
            { songData := some (toString audioSize),
              thumbnailData := thumbSize.map toString,
              lrcData := (o.lyrics.getD "") }⟩,
      true⟩

/-- `_downloadAndSave(trackDetails)` over the acquisition oracle. -/
def downloadAndSave (td : TrackDetails) (o : AcqOracle) : AcqOutcome :=
  if jsTruthy td.youtubeVideoId = false then ⟨⟨false, td.id⟩, none, false⟩
  else
    match o.dlInfo with
    | .error _ => ⟨⟨false, td.id⟩, none, true⟩
    | .ok info =>
      if jsTruthy info.downloadUrl = false then ⟨⟨false, td.id⟩, none, true⟩
      else
        match (fetchWithRetry o.audioAttempts (info.downloadUrl.getD "") 4).result with
        | .error _ => ⟨⟨false, td.id⟩, none, true⟩
        | .ok (_, audioSize) =>
          if jsTruthy td.thumbnailId then
            match (fetchWithRetry o.thumbAttempts
                (thumbnailUrlOf (td.thumbnailId.getD "")) 2).result with
            | .error _ => ⟨⟨false, td.id⟩, none, true⟩
            | .ok (_, thumbSize) => finishSave td o info audioSize (some thumbSize)
          else finishSave td o info audioSize none

/-! ## Queue processor (`processQueue` in the download manager)

`processQueue` is guarded by the module-level `isProcessing` flag.  A run
loads the queue, selects the first 30 entries, marks them `processing`,
persists, then: Phase 1 downloads the entries whose `getTrackDetails` answer
already has a `youtubeVideoId` (removing successes from the re-read queue and
marking failures `failed`); Phase 2 submits the rest and waits; Phase 3
re-checks and downloads those that now have a pointer, with the same
bookkeeping.  The top-level catch reloads the queue, demotes every
`processing` entry to `failed` and persists; the `finally` clears the flag.
External answers are oracles keyed by track id; the persisted queue is the
explicit state (the run re-reads its own last write). -/

/-- Oracles of one run: whether `getTrackDetails` reports a resolved pointer
in Phase 1 / Phase 3, and whether `_downloadAndSave` succeeds for an id in
Phase 1 / Phase 3. -/
structure PQOracle where
  initialHasPtr : String → Bool
  dl1 : String → Bool
  finalHasPtr : String → Bool
  dl2 : String → Bool

/-- `queue.forEach(t => if (trackIdsToProcess.includes(t.id)) t.status = processing)`. -/
def markProcessing (batchIds : List String) (q : List QueueEntry) :
    List QueueEntry :=
  q.map fun t =>
    if batchIds.contains t.id then { t with status := QStatus.processing } else t

/-- `currentQueue.find(t => t.id === trackId)` mutated in place to `failed`:
set the first entry with the given id to `failed`. -/
def setFirstFailed (trackId : String) : List QueueEntry → List QueueEntry
  | [] => []
  | t :: ts =>
    if t.id = trackId then { t with status := QStatus.failed } :: ts
    else t :: setFirstFailed trackId ts

/-- Apply one `{success, trackId}` result to the re-read queue: a success
filters out that id; a failure marks the (first) entry with that id `failed`. -/
def applyResult (q : List QueueEntry) (r : Bool × String) : List QueueEntry :=
  if r.1 then q.filter (fun t => t.id ≠ r.2) else setFirstFailed r.2 q

/-- `results.forEach(...)` over the re-read queue. -/
def applyResults (results : List (Bool × String)) (q : List QueueEntry) :
    List QueueEntry :=
  results.foldl applyResult q

/-- One download fan-out over a phase's id list: skipped when the list is
empty (the source's `length > 0` guard), otherwise the per-id
`_downloadAndSave` results are applied to the re-read queue. -/
def phaseApply (ids : List String) (dl : String → Bool) (q : List QueueEntry) :
    List QueueEntry :=
  if ids.isEmpty then q else applyResults (ids.map (fun i => (dl i, i))) q

/-- One exception-free `processQueue` run over the persisted queue.
`(q.take 30).map (·.id)` is `trackIdsToProcess`; its `initialHasPtr` filter is
`tracksToDownloadImmediately` (Phase 1), the complement is
`tracksNeedingProcessing`, and the latter's `finalHasPtr` filter is
`tracksToDownloadNow` (Phase 3). -/
def processQueueRun (q : List QueueEntry) (o : PQOracle) : List QueueEntry :=
  if q.isEmpty then q
  else if (((q.take 30).map (fun t => t.id)).filter
      (fun i => ! o.initialHasPtr i)).isEmpty then
    phaseApply (((q.take 30).map (fun t => t.id)).filter
        (fun i => o.initialHasPtr i)) o.dl1
      (markProcessing ((q.take 30).map (fun t => t.id)) q)
  else
    phaseApply ((((q.take 30).map (fun t => t.id)).filter
        (fun i => ! o.initialHasPtr i)).filter (fun i => o.finalHasPtr i)) o.dl2
      (phaseApply (((q.take 30).map (fun t => t.id)).filter
          (fun i => o.initialHasPtr i)) o.dl1
        (markProcessing ((q.take 30).map (fun t => t.id)) q))

/-- The download manager's observable state: the module-level `isProcessing`
flag and the persisted queue. -/
structure MgrState where
  isProcessing : Bool
  queue : List QueueEntry
deriving Repr

/-- `processQueue`: re-entrancy guard, then a run; the `finally` leaves the
flag cleared on the exit of the run. -/
def processQueue (st : MgrState) (o : PQOracle) : MgrState :=
  if st.isProcessing then st
  else { isProcessing := false, queue := processQueueRun st.queue o }

/-- The top-level catch handler: demote every `processing` entry to `failed`. -/
def demoteProcessing (q : List QueueEntry) : List QueueEntry :=
  q.map fun t =>
    if t.status = QStatus.processing then { t with status := QStatus.failed } else t

/-- End state of a run that hit the top-level catch while the persisted
queue was `qAtError`: demote, persist, and clear the flag in the `finally`. -/
def processQueueOnError (qAtError : List QueueEntry) : MgrState :=
  { isProcessing := false, queue := demoteProcessing qAtError }

/-! ## Duration parsing (`tryFreeToolServer` in `api.js`)

`tryFreeToolServer` computes
`(parseInt(parts[0], 10) * 60 + parseInt(parts[1], 10)) * 1000` over
`parts = result.duration.split(':')`.  `split` for a one-character separator
and `parseInt`'s decimal-digit core are modelled over character lists; a NaN
outcome is `none`. -/

/-- `String.prototype.split(sep)` for a single-character separator. -/
def splitOnChar (sep : Char) : List Char → List (List Char)
  | [] => [[]]
  | c :: cs =>
    if c = sep then [] :: splitOnChar sep cs
    else
      match splitOnChar sep cs with
      | r :: rs => (c :: r) :: rs
      | [] => [[c]]

/-- `parseInt(s, 10)`: the value of the leading decimal digits, `none` (NaN)
when there is no leading digit. -/
def parseIntDigits (s : List Char) : Option Nat :=
  if (s.takeWhile (fun c => c.isDigit)).isEmpty then none
  else
    some ((s.takeWhile (fun c => c.isDigit)).foldl
      (fun n c => n * 10 + (c.toNat - 48)) 0)

/-- The duration-to-milliseconds computation of `tryFreeToolServer`. -/
def parseDurationMs (duration : String) : Option Nat :=
  match splitOnChar ':' duration.data with
  | p0 :: p1 :: _ =>
    match parseIntDigits p0, parseIntDigits p1 with
    | some m, some s => some ((m * 60 + s) * 1000)
    | _, _ => none
  | _ => none

/-- Canonical decimal digit characters of `n`, most significant first. -/
def decChars (n : Nat) : List Char :=
  if n = 0 then ['0']
  else ((Nat.digits 10 n).reverse).map (fun d => Char.ofNat (d + 48))

/-! ### Lemmas about the fetch loop -/

theorem fetchAux_attempts_le (o : Nat → AttemptResult) (url : String)
    (retries : Nat) : ∀ remaining i,
    (fetchAux o url retries i remaining).attemptsMade ≤ remaining := by
  intro remaining
  induction remaining with
  | zero => intro i; simp [fetchAux]
  | succ r ih =>
    intro i
    unfold fetchAux
    cases o i with
    | ok size =>
      by_cases hs : size > MINIMUM_FILE_SIZE
      · simp [hs]
      · by_cases hi : i + 1 < retries
        · simpa [hs, hi] using Nat.succ_le_succ (ih (i + 1))
        · simp [hs, hi]
    | netError =>
      by_cases hi : i + 1 < retries
      · simpa [hi] using Nat.succ_le_succ (ih (i + 1))
      · simp [hi]
    | httpError s =>
      by_cases hi : i + 1 < retries
      · simpa [hi] using Nat.succ_le_succ (ih (i + 1))
      · simp [hi]

theorem fetchAux_attempts_eq_delays_succ (o : Nat → AttemptResult)
    (url : String) (retries : Nat) : ∀ remaining i,
    i + remaining = retries → 1 ≤ remaining →
    (fetchAux o url retries i remaining).attemptsMade =
      (fetchAux o url retries i remaining).delaysWaited + 1 := by
  intro remaining
  induction remaining with
  | zero => intro i _ h1; omega
  | succ r ih =>
    intro i hinv _
    unfold fetchAux
    cases o i with
    | ok size =>
      by_cases hs : size > MINIMUM_FILE_SIZE
      · simp [hs]
      · by_cases hi : i + 1 < retries
        · have hr1 : (i + 1) + r = retries := by omega
          have hr2 : 1 ≤ r := by omega
          have hx := ih (i + 1) hr1 hr2
          simp [hs, hi]
          omega
        · simp [hs, hi]
    | netError =>
      by_cases hi : i + 1 < retries
      · have hr1 : (i + 1) + r = retries := by omega
        have hr2 : 1 ≤ r := by omega
        have hx := ih (i + 1) hr1 hr2
        simp [hi]
        omega
      · simp [hi]
    | httpError s =>
      by_cases hi : i + 1 < retries
      · have hr1 : (i + 1) + r = retries := by omega
        have hr2 : 1 ≤ r := by omega
        have hx := ih (i + 1) hr1 hr2
        simp [hi]
        omega
      · simp [hi]

theorem fetchAux_error (o : Nat → AttemptResult) (url : String)
    (retries : Nat) : ∀ remaining i, i + remaining = retries →
    ∀ m, (fetchAux o url retries i remaining).result = .error m →
    m = fetchFailMsg url retries ∧
      (fetchAux o url retries i remaining).attemptsMade = remaining := by
  intro remaining
  induction remaining with
  | zero =>
    intro i _ m hm
    simp [fetchAux] at hm ⊢
    exact hm.symm
  | succ r ih =>
    intro i hinv m
    unfold fetchAux
    cases o i with
    | ok size =>
      by_cases hs : size > MINIMUM_FILE_SIZE
      · simp [hs]
      · by_cases hi : i + 1 < retries
        · have hr : (i + 1) + r = retries := by omega
          simp only [hs, gt_iff_lt, if_false, hi, if_true]
          intro hm
          rcases ih (i + 1) hr m hm with ⟨hmsg, hatt⟩
          refine ⟨hmsg, ?_⟩
          simp
          omega
        · have hr0 : r = 0 := by omega
          subst hr0
          simp only [hs, gt_iff_lt, if_false, hi]
          intro hm
          injection hm with hm2
          exact ⟨hm2.symm, by trivial⟩
    | netError =>
      by_cases hi : i + 1 < retries
      · have hr : (i + 1) + r = retries := by omega
        simp only [hi, if_true]
        intro hm
        rcases ih (i + 1) hr m hm with ⟨hmsg, hatt⟩
        refine ⟨hmsg, ?_⟩
        simp
        omega
      · have hr0 : r = 0 := by omega
        subst hr0
        simp only [hi, if_false]
        intro hm
        injection hm with hm2
        exact ⟨hm2.symm, by trivial⟩
    | httpError s =>
      by_cases hi : i + 1 < retries
      · have hr : (i + 1) + r = retries := by omega
        simp only [hi, if_true]
        intro hm
        rcases ih (i + 1) hr m hm with ⟨hmsg, hatt⟩
        refine ⟨hmsg, ?_⟩
        simp
        omega
      · have hr0 : r = 0 := by omega
        subst hr0
        simp only [hi, if_false]
        intro hm
        injection hm with hm2
        exact ⟨hm2.symm, by trivial⟩

/-- Claim C8: the retrying fetch client performs at most `retries` attempts,
waits the inter-attempt delay at most `retries - 1` times (never after the
last attempt), and on final failure throws an error whose message carries the
URL and the attempt count, having made exactly `retries` attempts (no retry
after exhaustion). -/
theorem claim_C8 (o : Nat → AttemptResult) (url : String) (retries : Nat) :
    (fetchWithRetry o url retries).attemptsMade ≤ retries ∧
    (fetchWithRetry o url retries).delaysWaited ≤ retries - 1 ∧
    ∀ m, (fetchWithRetry o url retries).result = .error m →
      m = fetchFailMsg url retries ∧
      (fetchWithRetry o url retries).attemptsMade = retries := by
  have hle := fetchAux_attempts_le o url retries retries 0
  refine ⟨hle, ?_, ?_⟩
  · rcases Nat.eq_zero_or_pos retries with h0 | hpos
    · subst h0; simp [fetchWithRetry, fetchAux]
    · have heq := fetchAux_attempts_eq_delays_succ o url retries retries 0
        (by omega) (by omega)
      unfold fetchWithRetry
      unfold fetchWithRetry at heq
      omega
  · intro m hm
    exact fetchAux_error o url retries retries 0 (by omega) m hm

/-- Witness for C8 at the concrete input `o = always network error`,
`url = "u"`, `retries = 2`. -/
theorem claim_C8_witness :
    (fetchWithRetry (fun _ => AttemptResult.netError) "u" 2).attemptsMade ≤ 2 ∧
    (fetchWithRetry (fun _ => AttemptResult.netError) "u" 2).delaysWaited ≤ 1 ∧
    (fetchWithRetry (fun _ => AttemptResult.netError) "u" 2).attemptsMade = 2 := by
  have h := claim_C8 (fun _ => AttemptResult.netError) "u" 2
  refine ⟨h.1, h.2.1, ?_⟩
  exact (h.2.2 (fetchFailMsg "u" 2) rfl).2

/-- Counterexample for C3 as stated: a 2xx response whose body is exactly
10,000 bytes is "not smaller than 10,000 bytes", yet the client never accepts
it — with every attempt returning a 10,000-byte 2xx body, the run ends in the
terminal error rather than returning the response. -/
theorem claim_C3_counterexample :
    ¬ (10000 < MINIMUM_FILE_SIZE) ∧
    (fetchWithRetry (fun _ => AttemptResult.ok 10000) "u" 4).result =
      .error (fetchFailMsg "u" 4) := by
  exact ⟨by decide, rfl⟩

/-- Claim C3 (amended): a 2xx response whose fully-buffered body is smaller
than **or equal to** 10,000 bytes is counted as a failed attempt and, if
attempts remain, the client waits and retries; a 2xx body **strictly larger**
than 10,000 bytes is accepted and returned at once.  In particular, against an
endpoint returning a 5,000-byte body on the first call and a 50,000-byte body
on the second, the client retries exactly once (one delay) and returns the
second response. -/
theorem claim_C3_amended :
    (∀ (o : Nat → AttemptResult) (url : String) (retries s : Nat),
        o 0 = .ok s →
        ((s ≤ MINIMUM_FILE_SIZE → 2 ≤ retries →
            2 ≤ (fetchWithRetry o url retries).attemptsMade ∧
            1 ≤ (fetchWithRetry o url retries).delaysWaited) ∧
         (MINIMUM_FILE_SIZE < s → 1 ≤ retries →
            fetchWithRetry o url retries = ⟨1, 0, .ok (0, s)⟩))) ∧
    fetchWithRetry (fun i => if i = 0 then .ok 5000 else .ok 50000) "u" 4 =
      ⟨2, 1, .ok (1, 50000)⟩ := by
  constructor
  · intro o url retries s ho
    constructor
    · intro hs hret
      obtain ⟨r, hr⟩ : ∃ r, retries = r + 2 := ⟨retries - 2, by omega⟩
      subst hr
      have hnot : ¬ (MINIMUM_FILE_SIZE < s) := Nat.not_lt.mpr hs
      have heq := fetchAux_attempts_eq_delays_succ o url (r + 2) (r + 1) 1
        (by omega) (by omega)
      unfold fetchWithRetry fetchAux
      rw [ho]
      simp only [gt_iff_lt, hnot, if_false, eq_true (show 0 + 1 < r + 2 by omega),
        if_true]
      simp
      omega
    · intro hs hret
      obtain ⟨r, hr⟩ : ∃ r, retries = r + 1 := ⟨retries - 1, by omega⟩
      subst hr
      unfold fetchWithRetry fetchAux
      rw [ho]
      simp [hs]
  · rfl

/-- Witness for the amended C3 at concrete inputs: an endpoint always
returning 5,000-byte 2xx bodies is retried (≥ 2 attempts, ≥ 1 delay) over 4
attempts, and an endpoint returning a 50,000-byte 2xx body on the first call
is accepted immediately. -/
theorem claim_C3_amended_witness :
    (2 ≤ (fetchWithRetry (fun _ => AttemptResult.ok 5000) "u" 4).attemptsMade ∧
     1 ≤ (fetchWithRetry (fun _ => AttemptResult.ok 5000) "u" 4).delaysWaited) ∧
    fetchWithRetry (fun _ => AttemptResult.ok 50000) "u" 4 =
      ⟨1, 0, .ok (0, 50000)⟩ := by
  have h := claim_C3_amended
  refine ⟨(h.1 (fun _ => AttemptResult.ok 5000) "u" 4 5000 rfl).1 (by decide)
    (by decide), ?_⟩
  exact (h.1 (fun _ => AttemptResult.ok 50000) "u" 4 50000 rfl).2 (by decide)
    (by decide)

/-- Claim C4: `getDownloadInfo` throws its terminal all-sources-exhausted
error only if both primary strategies and the fallback all fail; and whenever
both primaries fail while the fallback succeeds, it returns the fallback's
candidate. -/
theorem claim_C4 (o : ResolverOracle) :
    (∀ m, getDownloadInfo o = .error m →
      (∃ e1, o.freeToolServer = .error e1) ∧
      (∃ e2, o.y2Meta = .error e2) ∧
      (∃ e3, o.fallback = .error e3) ∧ m = allFailedMsg) ∧
    (∀ e1 e2 c, o.freeToolServer = .error e1 → o.y2Meta = .error e2 →
      o.fallback = .ok c → getDownloadInfo o = .ok c) := by
  obtain ⟨fts, y2, w, fb⟩ := o
  constructor
  · intro m hm
    cases fts with
    | ok c1 => cases y2 <;> simp [getDownloadInfo] at hm
    | error e1 =>
      cases y2 with
      | ok c2 => simp [getDownloadInfo] at hm
      | error e2 =>
        cases fb with
        | ok d => simp [getDownloadInfo] at hm
        | error e3 =>
          simp [getDownloadInfo] at hm
          exact ⟨⟨e1, rfl⟩, ⟨e2, rfl⟩, ⟨e3, rfl⟩, hm.symm⟩
  · intro e1 e2 c h1 h2 h3
    subst h1; subst h2; subst h3
    simp [getDownloadInfo]

/-- Witness for C4 at a concrete oracle: both primaries fail, the fallback
succeeds, and the fallback's candidate is returned. -/
theorem claim_C4_witness :
    getDownloadInfo ⟨.error "a", .error "b", true, .ok ⟨"cf", "url", 0⟩⟩ =
      .ok ⟨"cf", "url", 0⟩ := by
  exact (claim_C4 ⟨.error "a", .error "b", true, .ok ⟨"cf", "url", 0⟩⟩).2
    "a" "b" ⟨"cf", "url", 0⟩ rfl rfl rfl

/-- Claim C7: enqueue is idempotent on track id — enqueueing a track whose id
is already in the queue leaves the queue unchanged, and enqueueing the same
id twice yields exactly one entry with that id. -/
theorem claim_C7 (q : List QueueEntry) (t t' : TrackData)
    (hid : t'.id = t.id) :
    ((∃ e ∈ q, e.id = t.id) → addTrackToDownloadQueue q t = q) ∧
    ((∀ e ∈ q, e.id ≠ t.id) →
      ((addTrackToDownloadQueue (addTrackToDownloadQueue q t) t').filter
        (fun e => e.id = t.id)).length = 1) := by
  constructor
  · intro h
    unfold addTrackToDownloadQueue
    rw [if_pos]
    rw [List.any_eq_true]
    obtain ⟨e, he, hee⟩ := h
    exact ⟨e, he, by simp [hee]⟩
  · intro h
    have h1 : q.any (fun item => item.id = t.id) = false := by
      rw [List.any_eq_false]
      intro e he
      simp [h e he]
    have step1 : addTrackToDownloadQueue q t =
        q ++ [QueueEntry.mk t.id t.name .queued] := by
      unfold addTrackToDownloadQueue
      rw [if_neg]
      simp [h1]
    have h2 : (q ++ [QueueEntry.mk t.id t.name .queued]).any
        (fun item => item.id = t'.id) = true := by
      rw [List.any_eq_true]
      exact ⟨QueueEntry.mk t.id t.name QStatus.queued,
        by simp, by simp [hid]⟩
    have step2 : addTrackToDownloadQueue
        (q ++ [QueueEntry.mk t.id t.name .queued]) t' =
        q ++ [QueueEntry.mk t.id t.name .queued] := by
      unfold addTrackToDownloadQueue
      rw [if_pos h2]
    rw [step1, step2, List.filter_append]
    have hq : q.filter (fun e => e.id = t.id) = [] := by
      rw [List.filter_eq_nil_iff]
      intro e he
      simp [h e he]
    simp [hq]

/-- Witness for C7: enqueueing id `A` into a queue already holding `A` is a
no-op, and enqueueing `A` twice into the empty queue yields one `A` entry. -/
theorem claim_C7_witness :
    ((∃ e ∈ [QueueEntry.mk "A" "x" .queued], e.id = "A") →
      addTrackToDownloadQueue [QueueEntry.mk "A" "x" .queued] ⟨"A", "x"⟩ =
        [QueueEntry.mk "A" "x" .queued]) ∧
    ((addTrackToDownloadQueue
        (addTrackToDownloadQueue [] ⟨"A", "x"⟩) ⟨"A", "x"⟩).filter
      (fun e => e.id = "A")).length = 1 := by
  have h := claim_C7 [QueueEntry.mk "A" "x" .queued] ⟨"A", "x"⟩ ⟨"A", "x"⟩ rfl
  have h0 := claim_C7 ([] : List QueueEntry) ⟨"A", "x"⟩ ⟨"A", "x"⟩ rfl
  exact ⟨h.1, h0.2 (by simp)⟩

/-- Claim C10: writing a `StoredTrack` for an id already present carries the
existing record's `playCount` and `totalPlayTime` over unchanged; for a fresh
id they initialize to 0; records of other ids are untouched. -/
theorem claim_C10 (tracks : String → Option StoredTrack) (meta : TrackMeta)
    (assets : TrackAssets) (hid : jsTruthyS meta.id = true)
    (hsong : jsTruthy assets.songData = true) :
    (∀ r, tracks meta.id = some r →
      (addDownloadedTrack tracks meta assets meta.id).map
          (fun nr => (nr.playCount, nr.totalPlayTime)) =
        some (r.playCount, r.totalPlayTime)) ∧
    (tracks meta.id = none →
      (addDownloadedTrack tracks meta assets meta.id).map
          (fun nr => (nr.playCount, nr.totalPlayTime)) = some (0, 0)) ∧
    (∀ k, k ≠ meta.id → addDownloadedTrack tracks meta assets k = tracks k) := by
  have hguard : ¬ (jsTruthyS meta.id = false ∨ jsTruthy assets.songData = false) := by
    simp [hid, hsong]
  refine ⟨?_, ?_, ?_⟩
  · intro r hr
    unfold addDownloadedTrack
    rw [if_neg hguard]
    simp [hr]
  · intro hr
    unfold addDownloadedTrack
    rw [if_neg hguard]
    simp [hr]
  · intro k hk
    unfold addDownloadedTrack
    rw [if_neg hguard]
    simp [hk]

/-- Witness for C10 at a concrete store: the record of id `A` with
`playCount = 7`, `totalPlayTime = 9000` keeps those statistics across a
re-download write. -/
theorem claim_C10_witness :
    (addDownloadedTrack
        (fun k => if k = "A" then
          some ⟨"A", "n", [], 0, "f", none, none, 7, 9000⟩ else none)
        ⟨"A", "n", [], 0⟩ ⟨some "base64", none, ""⟩ "A").map
      (fun nr => (nr.playCount, nr.totalPlayTime)) = some (7, 9000) := by
  have h := claim_C10
    (fun k => if k = "A" then
      some ⟨"A", "n", [], 0, "f", none, none, 7, 9000⟩ else none)
    ⟨"A", "n", [], 0⟩ ⟨some "base64", none, ""⟩ (by decide) (by decide)
  exact h.1 ⟨"A", "n", [], 0, "f", none, none, 7, 9000⟩ (by simp)

/-- Claim C2 (code bug): with a track that has a thumbnail id, audio fetch
succeeding (50,000-byte body on every attempt) and every thumbnail fetch
attempt throwing — so the thumbnail client exhausts its 2 attempts —
`_downloadAndSave` returns `success: false` and stores nothing, because the
thumbnail rejection rejects the `Promise.all`.  The claim (and the code's own
dead "Proceeding without thumbnail" branch) expects `success: true` with a
null thumbnail reference. -/
theorem claim_C2_bug :
    (fetchWithRetry (fun _ => AttemptResult.ok 50000) "u" 4).result.isOk = true ∧
    (fetchWithRetry (fun _ => AttemptResult.netError)
        (thumbnailUrlOf "thumb") 2).result =
      .error (fetchFailMsg (thumbnailUrlOf "thumb") 2) ∧
    downloadAndSave ⟨"t1", some "vid", "Song", ["Artist"], some "thumb"⟩
        ⟨.ok ⟨some "u", some 1000⟩, fun _ => .ok 50000, fun _ => .netError,
          none, false⟩ =
      ⟨⟨false, "t1"⟩, none, true⟩ :=
  ⟨rfl, rfl, rfl⟩

/-- Claim C5: `_downloadAndSave` always returns a `{success, trackId}` object
carrying the input's track id; with a missing (falsy) YouTube id it fails
immediately with no network call; a resolver exception or a storage exception
yields `success: false`; and `success: true` is only possible when the
pointer was present, the resolver succeeded, the audio fetch succeeded and
the storage write did not throw. -/
theorem claim_C5 (td : TrackDetails) (o : AcqOracle) :
    (downloadAndSave td o).result.trackId = td.id ∧
    (jsTruthy td.youtubeVideoId = false →
      downloadAndSave td o = ⟨⟨false, td.id⟩, none, false⟩) ∧
    (∀ e, o.dlInfo = .error e → (downloadAndSave td o).result.success = false) ∧
    (o.storeThrows = true → (downloadAndSave td o).result.success = false) ∧
    ((downloadAndSave td o).result.success = true →
      jsTruthy td.youtubeVideoId = true ∧ o.storeThrows = false ∧
      ∃ info, o.dlInfo = .ok info ∧
        (fetchWithRetry o.audioAttempts (info.downloadUrl.getD "") 4).result.isOk
          = true) := by
  refine ⟨?_, ?_, ?_, ?_, ?_⟩
  · unfold downloadAndSave finishSave
    repeat' split
    all_goals rfl
  · intro h
    unfold downloadAndSave
    simp [h]
  · intro e he
    unfold downloadAndSave
    rw [he]
    split <;> rfl
  · intro hs
    unfold downloadAndSave finishSave
    repeat' split
    all_goals (first | rfl | simp_all)
  · intro hsucc
    unfold downloadAndSave finishSave at hsucc
    split at hsucc
    · simp at hsucc
    · rename_i hyt
      split at hsucc
      · simp at hsucc
      · rename_i info hdl
        split at hsucc
        · simp at hsucc
        · rename_i hurl
          split at hsucc
          · simp at hsucc
          · rename_i aIdx aSize hau
            split at hsucc
            · split at hsucc
              · simp at hsucc
              · rename_i tIdx tSize htr
                split at hsucc
                · simp at hsucc
                · rename_i hst
                  exact ⟨by simpa using hyt, by simpa using hst, info, hdl,
                    by rw [hau]; rfl⟩
            · split at hsucc
              · simp at hsucc
              · rename_i hst
                exact ⟨by simpa using hyt, by simpa using hst, info, hdl,
                  by rw [hau]; rfl⟩

/-- Witness for C5 at a concrete input: with a missing YouTube id the result
carries the same track id, `success: false`, and no network call was made. -/
theorem claim_C5_witness :
    (downloadAndSave ⟨"t1", none, "S", [], none⟩
      ⟨.error "x", fun _ => .netError, fun _ => .netError, none, false⟩).result.trackId
        = "t1" ∧
    downloadAndSave ⟨"t1", none, "S", [], none⟩
      ⟨.error "x", fun _ => .netError, fun _ => .netError, none, false⟩ =
      ⟨⟨false, "t1"⟩, none, false⟩ := by
  have h := claim_C5 ⟨"t1", none, "S", [], none⟩
    ⟨.error "x", fun _ => .netError, fun _ => .netError, none, false⟩
  exact ⟨h.1, h.2.1 (by decide)⟩

/-! ### Lemmas about the queue-processing steps -/

theorem setFirstFailed_map_id (i : String) (q : List QueueEntry) :
    (setFirstFailed i q).map (fun t => t.id) = q.map (fun t => t.id) := by
  induction q with
  | nil => rfl
  | cons t ts ih =>
    unfold setFirstFailed
    by_cases h : t.id = i
    · simp [h]
    · simp [h, ih]

theorem setFirstFailed_mem (i : String) (q : List QueueEntry) (e : QueueEntry)
    (he : e ∈ setFirstFailed i q) :
    ∃ e' ∈ q, e'.id = e.id ∧
      (e = e' ∨ e = { e' with status := QStatus.failed }) := by
  induction q with
  | nil => cases he
  | cons t ts ih =>
    unfold setFirstFailed at he
    by_cases h : t.id = i
    · rw [if_pos h] at he
      rcases List.mem_cons.mp he with heq | hmem
      · subst heq
        exact ⟨t, List.mem_cons_self t ts, rfl, Or.inr rfl⟩
      · exact ⟨e, List.mem_cons_of_mem t hmem, rfl, Or.inl rfl⟩
    · rw [if_neg h] at he
      rcases List.mem_cons.mp he with heq | hmem
      · subst heq
        exact ⟨e, List.mem_cons_self e ts, rfl, Or.inl rfl⟩
      · rcases ih hmem with ⟨e', he', hid, hor⟩
        exact ⟨e', List.mem_cons_of_mem t he', hid, hor⟩

theorem setFirstFailed_mem_ne (i : String) (q : List QueueEntry)
    (e : QueueEntry) (he : e ∈ setFirstFailed i q) (hne : e.id ≠ i) :
    e ∈ q := by
  induction q with
  | nil => cases he
  | cons t ts ih =>
    unfold setFirstFailed at he
    by_cases h : t.id = i
    · rw [if_pos h] at he
      rcases List.mem_cons.mp he with heq | hmem
      · exfalso
        apply hne
        rw [heq, h]
      · exact List.mem_cons_of_mem t hmem
    · rw [if_neg h] at he
      rcases List.mem_cons.mp he with heq | hmem
      · exact heq ▸ List.mem_cons_self t ts
      · exact List.mem_cons_of_mem t (ih hmem)

theorem setFirstFailed_mem_eq (i : String) (q : List QueueEntry)
    (e : QueueEntry) (hnd : (q.map (fun t => t.id)).Nodup)
    (he : e ∈ setFirstFailed i q) (hid : e.id = i) :
    e.status = QStatus.failed := by
  induction q with
  | nil => cases he
  | cons t ts ih =>
    unfold setFirstFailed at he
    have hnd' := hnd
    rw [List.map_cons, List.nodup_cons] at hnd'
    obtain ⟨hhd, htl⟩ := hnd'
    by_cases h : t.id = i
    · rw [if_pos h] at he
      rcases List.mem_cons.mp he with heq | hmem
      · rw [heq]
      · exfalso
        apply hhd
        have hmm : e.id ∈ ts.map (fun t => t.id) := List.mem_map.mpr ⟨e, hmem, rfl⟩
        rw [h, ← hid]
        exact hmm
    · rw [if_neg h] at he
      rcases List.mem_cons.mp he with heq | hmem
      · exact absurd (heq ▸ hid) h
      · exact ih htl hmem

theorem applyResult_nodup (q : List QueueEntry) (r : Bool × String)
    (hnd : (q.map (fun t => t.id)).Nodup) :
    ((applyResult q r).map (fun t => t.id)).Nodup := by
  unfold applyResult
  split
  · exact hnd.sublist ((List.filter_sublist q).map (fun t => t.id))
  · rw [setFirstFailed_map_id]
    exact hnd

theorem applyResult_mem_ne (q : List QueueEntry) (r : Bool × String)
    (e : QueueEntry) (he : e ∈ applyResult q r) (hne : e.id ≠ r.2) : e ∈ q := by
  unfold applyResult at he
  split at he
  · exact List.mem_of_mem_filter he
  · exact setFirstFailed_mem_ne _ _ _ he hne

theorem applyResult_mem_eq (q : List QueueEntry) (r : Bool × String)
    (e : QueueEntry) (hnd : (q.map (fun t => t.id)).Nodup)
    (he : e ∈ applyResult q r) (hid : e.id = r.2) :
    e.status = QStatus.failed := by
  unfold applyResult at he
  split at he
  · exfalso
    have := (List.mem_filter.mp he).2
    simp [hid] at this
  · exact setFirstFailed_mem_eq _ _ _ hnd he hid

theorem applyResults_nodup (rs : List (Bool × String)) :
    ∀ q : List QueueEntry, (q.map (fun t => t.id)).Nodup →
    ((applyResults rs q).map (fun t => t.id)).Nodup := by
  induction rs with
  | nil => intro q h; simpa [applyResults] using h
  | cons r rs ih =>
    intro q h
    have : applyResults (r :: rs) q = applyResults rs (applyResult q r) := by
      simp [applyResults]
    rw [this]
    exact ih _ (applyResult_nodup q r h)

theorem applyResults_mem_ne (rs : List (Bool × String)) :
    ∀ (q : List QueueEntry) (e : QueueEntry), e ∈ applyResults rs q →
    e.id ∉ rs.map Prod.snd → e ∈ q := by
  induction rs with
  | nil => intro q e he _; simpa [applyResults] using he
  | cons r rs ih =>
    intro q e he hni
    have heq : applyResults (r :: rs) q = applyResults rs (applyResult q r) := by
      simp [applyResults]
    rw [heq] at he
    have hni2 : e.id ∉ rs.map Prod.snd := fun hm => hni (by simp [hm])
    have hne : e.id ≠ r.2 := fun hm => hni (by simp [hm])
    exact applyResult_mem_ne q r e (ih _ e he hni2) hne

theorem applyResults_mem_processed (rs : List (Bool × String)) :
    ∀ (q : List QueueEntry) (e : QueueEntry),
    (q.map (fun t => t.id)).Nodup → e ∈ applyResults rs q →
    e.id ∈ rs.map Prod.snd → e.status = QStatus.failed := by
  induction rs with
  | nil => intro q e _ _ hm; cases hm
  | cons r rs ih =>
    intro q e hnd he hm
    have heq : applyResults (r :: rs) q = applyResults rs (applyResult q r) := by
      simp [applyResults]
    rw [heq] at he
    by_cases h2 : e.id ∈ rs.map Prod.snd
    · exact ih _ e (applyResult_nodup q r hnd) he h2
    · have hid : e.id = r.2 := by
        rw [List.map_cons] at hm
        rcases List.mem_cons.mp hm with h | h
        · exact h
        · exact absurd h h2
      have he' : e ∈ applyResult q r := applyResults_mem_ne rs _ e he h2
      exact applyResult_mem_eq q r e hnd he' hid

theorem markProcessing_map_id (b : List String) (q : List QueueEntry) :
    (markProcessing b q).map (fun t => t.id) = q.map (fun t => t.id) := by
  induction q with
  | nil => rfl
  | cons t ts ih =>
    show ((if b.contains t.id then { t with status := QStatus.processing } else t) ::
      markProcessing b ts).map (fun t => t.id) = t.id :: ts.map (fun t => t.id)
    rw [List.map_cons, ih]
    have hhd : (if b.contains t.id then
        { t with status := QStatus.processing } else t).id = t.id := by
      split <;> rfl
    rw [hhd]

theorem markProcessing_mem (b : List String) (q : List QueueEntry)
    (e : QueueEntry) (he : e ∈ markProcessing b q) :
    ∃ e' ∈ q, e.id = e'.id ∧
      ((e'.id ∈ b ∧ e = { e' with status := QStatus.processing }) ∨
       (e'.id ∉ b ∧ e = e')) := by
  unfold markProcessing at he
  rcases List.mem_map.mp he with ⟨e', he', heq⟩
  by_cases h : e'.id ∈ b
  · have hc : b.contains e'.id = true := by simpa using h
    rw [if_pos hc] at heq
    exact ⟨e', he', by rw [← heq], Or.inl ⟨h, heq.symm⟩⟩
  · have hc : ¬ (b.contains e'.id = true) := by simpa using h
    rw [if_neg hc] at heq
    exact ⟨e', he', by rw [← heq], Or.inr ⟨h, heq.symm⟩⟩

theorem phaseApply_nodup (ids : List String) (dl : String → Bool)
    (q : List QueueEntry) (hnd : (q.map (fun t => t.id)).Nodup) :
    ((phaseApply ids dl q).map (fun t => t.id)).Nodup := by
  unfold phaseApply
  split
  · exact hnd
  · exact applyResults_nodup _ q hnd

theorem phaseApply_mem_ne (ids : List String) (dl : String → Bool)
    (q : List QueueEntry) (e : QueueEntry) (he : e ∈ phaseApply ids dl q)
    (hni : e.id ∉ ids) : e ∈ q := by
  unfold phaseApply at he
  split at he
  · exact he
  · exact applyResults_mem_ne _ q e he (by simpa using hni)

theorem phaseApply_mem_processed (ids : List String) (dl : String → Bool)
    (q : List QueueEntry) (e : QueueEntry)
    (hnd : (q.map (fun t => t.id)).Nodup) (he : e ∈ phaseApply ids dl q)
    (hin : e.id ∈ ids) : e.status = QStatus.failed := by
  unfold phaseApply at he
  split at he
  · rename_i hemp
    rw [List.isEmpty_iff.mp hemp] at hin
    cases hin
  · exact applyResults_mem_processed _ q e hnd he (by simpa using hin)

theorem demoteProcessing_no_processing (q : List QueueEntry) (e : QueueEntry)
    (he : e ∈ demoteProcessing q) : e.status ≠ QStatus.processing := by
  unfold demoteProcessing at he
  rcases List.mem_map.mp he with ⟨e', _, heq⟩
  by_cases h : e'.status = QStatus.processing
  · rw [if_pos h] at heq
    rw [← heq]
    simp
  · rw [if_neg h] at heq
    rw [← heq]
    exact h

/-- Claim C6: at most one run is active — a `processQueue` call on a state
whose flag is set is a no-op returning the state unchanged; and the flag is
cleared at the exit of every actual run, both on the normal path and on the
top-level-error path. -/
theorem claim_C6 (st : MgrState) (o : PQOracle) (qAtError : List QueueEntry) :
    (st.isProcessing = true → processQueue st o = st) ∧
    (st.isProcessing = false → (processQueue st o).isProcessing = false) ∧
    (processQueueOnError qAtError).isProcessing = false := by
  refine ⟨?_, ?_, rfl⟩
  · intro h
    unfold processQueue
    simp [h]
  · intro h
    unfold processQueue
    simp [h]

/-- Witness for C6 at concrete states: a second invocation while the flag is
set changes nothing, and after a run from an idle state the flag is clear. -/
theorem claim_C6_witness :
    processQueue ⟨true, [⟨"A", "n", .queued⟩]⟩
        ⟨fun _ => false, fun _ => false, fun _ => false, fun _ => false⟩ =
      ⟨true, [⟨"A", "n", .queued⟩]⟩ ∧
    (processQueue ⟨false, [⟨"A", "n", .queued⟩]⟩
        ⟨fun _ => false, fun _ => false, fun _ => false, fun _ => false⟩).isProcessing
      = false := by
  have h1 := claim_C6 ⟨true, [⟨"A", "n", .queued⟩]⟩
    ⟨fun _ => false, fun _ => false, fun _ => false, fun _ => false⟩ []
  have h2 := claim_C6 ⟨false, [⟨"A", "n", .queued⟩]⟩
    ⟨fun _ => false, fun _ => false, fun _ => false, fun _ => false⟩ []
  exact ⟨h1.1 rfl, h2.2.1 rfl⟩

/-- Counterexample for C1 as stated: a fully successful run (no exception)
over a queue holding one entry whose id gets no resolved media pointer in
either the Phase 1 check or the Phase 3 re-check leaves that batch entry in
the persisted queue with status `processing` — neither absent, nor `failed`,
nor `queued`. -/
theorem claim_C1_counterexample :
    (processQueue ⟨false, [⟨"A", "n", .queued⟩]⟩
        ⟨fun _ => false, fun _ => false, fun _ => false, fun _ => false⟩).queue =
      [⟨"A", "n", .processing⟩] := rfl

/-- Claim C1 (amended): after a `processQueue` run from an idle state over a
queue of distinct-id `queued` entries, entries outside the selected batch are
still `queued`, and every remaining batch entry is either `failed` or — when
its id got no resolved media pointer in both the Phase 1 check and the
Phase 3 re-check (the success path's uncovered case) — still `processing`;
successfully downloaded entries are absent.  On the top-level-error path the
catch handler leaves no entry `processing`. -/
theorem claim_C1_amended (q : List QueueEntry) (o : PQOracle)
    (hnd : (q.map (fun t => t.id)).Nodup)
    (hq : ∀ e ∈ q, e.status = QStatus.queued) :
    (∀ e ∈ (processQueue ⟨false, q⟩ o).queue,
      (e.id ∈ (q.take 30).map (fun t => t.id) →
        e.status = QStatus.failed ∨
        (o.initialHasPtr e.id = false ∧ o.finalHasPtr e.id = false ∧
          e.status = QStatus.processing)) ∧
      (e.id ∉ (q.take 30).map (fun t => t.id) → e.status = QStatus.queued)) ∧
    (∀ (qe : List QueueEntry), ∀ e ∈ (processQueueOnError qe).queue,
      e.status ≠ QStatus.processing) := by
  constructor
  · intro e he
    have hpe : (processQueue ⟨false, q⟩ o).queue = processQueueRun q o := by
      unfold processQueue
      simp
    rw [hpe] at he
    unfold processQueueRun at he
    by_cases hemp : q.isEmpty = true
    · rw [if_pos hemp] at he
      rw [List.isEmpty_iff.mp hemp] at he
      cases he
    · rw [if_neg hemp] at he
      set b := (q.take 30).map (fun t => t.id) with hb
      set q1 := markProcessing b q with hq1def
      set toDl1 := b.filter (fun i => o.initialHasPtr i) with ht1
      set needP := b.filter (fun i => ! o.initialHasPtr i) with hnp
      set toDl2 := needP.filter (fun i => o.finalHasPtr i) with ht2
      set q2 := phaseApply toDl1 o.dl1 q1 with hq2def
      have hnd1 : (q1.map (fun t => t.id)).Nodup := by
        rw [hq1def, markProcessing_map_id]
        exact hnd
      have hnd2 : (q2.map (fun t => t.id)).Nodup := by
        rw [hq2def]
        exact phaseApply_nodup _ _ _ hnd1
      have hsplit : (needP.isEmpty = true ∧ e ∈ q2) ∨
          (needP.isEmpty = false ∧ e ∈ phaseApply toDl2 o.dl2 q2) := by
        by_cases hnpe : needP.isEmpty = true
        · rw [if_pos hnpe] at he
          exact Or.inl ⟨hnpe, he⟩
        · rw [if_neg hnpe] at he
          exact Or.inr ⟨by simpa using hnpe, he⟩
      have he2 : e.id ∉ toDl2 → e ∈ q2 := by
        intro hni
        rcases hsplit with ⟨_, h⟩ | ⟨_, h⟩
        · exact h
        · exact phaseApply_mem_ne _ _ _ _ h hni
      have hf2 : e.id ∈ toDl2 → e.status = QStatus.failed := by
        intro hin
        rcases hsplit with ⟨hne, _⟩ | ⟨_, h⟩
        · exfalso
          have htd2 : toDl2 = [] := by
            rw [ht2, List.isEmpty_iff.mp hne]
            rfl
          rw [htd2] at hin
          cases hin
        · exact phaseApply_mem_processed _ _ _ _ hnd2 h hin
      have hq1mem : ∀ x ∈ q1, (x.id ∈ b → x.status = QStatus.processing) ∧
          (x.id ∉ b → x.status = QStatus.queued) := by
        intro x hx
        rw [hq1def] at hx
        rcases markProcessing_mem b q x hx with ⟨e', he', hid, hcase⟩
        rcases hcase with ⟨hin, hxeq⟩ | ⟨hnin, hxeq⟩
        · constructor
          · intro _
            rw [hxeq]
          · intro hn
            exfalso
            apply hn
            rw [hid]
            exact hin
        · constructor
          · intro hinB
            exfalso
            apply hnin
            rw [← hid]
            exact hinB
          · intro _
            rw [hxeq]
            exact hq e' he'
      constructor
      · intro hin
        by_cases hinit : o.initialHasPtr e.id = true
        · have h1 : e.id ∈ toDl1 := by
            rw [ht1]
            exact List.mem_filter.mpr ⟨hin, by simp [hinit]⟩
          have h2 : e.id ∉ toDl2 := by
            intro hmem
            rw [ht2] at hmem
            have hmem2 := List.mem_of_mem_filter hmem
            rw [hnp] at hmem2
            have hpred := (List.mem_filter.mp hmem2).2
            simp [hinit] at hpred
          have he2' : e ∈ q2 := he2 h2
          rw [hq2def] at he2'
          exact Or.inl (phaseApply_mem_processed _ _ _ _ hnd1 he2' h1)
        · have hinitF : o.initialHasPtr e.id = false := by
            cases hfi : o.initialHasPtr e.id
            · rfl
            · exact absurd hfi hinit
          by_cases hfin : o.finalHasPtr e.id = true
          · have hnpmem : e.id ∈ needP := by
              rw [hnp]
              exact List.mem_filter.mpr ⟨hin, by simp [hinitF]⟩
            have h2 : e.id ∈ toDl2 := by
              rw [ht2]
              exact List.mem_filter.mpr ⟨hnpmem, by simp [hfin]⟩
            exact Or.inl (hf2 h2)
          · have hfinF : o.finalHasPtr e.id = false := by
              cases hff : o.finalHasPtr e.id
              · rfl
              · exact absurd hff hfin
            have h2 : e.id ∉ toDl2 := by
              intro hmem
              rw [ht2] at hmem
              have hpred := (List.mem_filter.mp hmem).2
              simp [hfinF] at hpred
            have h1 : e.id ∉ toDl1 := by
              intro hmem
              rw [ht1] at hmem
              have hpred := (List.mem_filter.mp hmem).2
              simp [hinitF] at hpred
            have heq2 : e ∈ q2 := he2 h2
            rw [hq2def] at heq2
            have heq1 : e ∈ q1 := phaseApply_mem_ne _ _ _ _ heq2 h1
            exact Or.inr ⟨hinitF, hfinF, (hq1mem e heq1).1 hin⟩
      · intro hnin
        have h1 : e.id ∉ toDl1 := by
          intro hmem
          rw [ht1] at hmem
          exact hnin (List.mem_of_mem_filter hmem)
        have h2 : e.id ∉ toDl2 := by
          intro hmem
          rw [ht2] at hmem
          have hmem2 := List.mem_of_mem_filter hmem
          rw [hnp] at hmem2
          exact hnin (List.mem_of_mem_filter hmem2)
        have heq2 : e ∈ q2 := he2 h2
        rw [hq2def] at heq2
        have heq1 : e ∈ q1 := phaseApply_mem_ne _ _ _ _ heq2 h1
        exact (hq1mem e heq1).2 hnin
  · intro qe e he
    exact demoteProcessing_no_processing qe e he

/-- Witness for the amended C1 at a concrete input: the singleton queue of
entry `A` in state `queued`, with an oracle that never resolves a pointer and
never succeeds a download, yields the entry still `processing` — the case the
amendment allows. -/
theorem claim_C1_amended_witness :
    QueueEntry.status ⟨"A", "n", QStatus.processing⟩ = QStatus.failed ∨
      ((fun _ : String => false) "A" = false ∧
        (fun _ : String => false) "A" = false ∧
        QueueEntry.status ⟨"A", "n", QStatus.processing⟩ = QStatus.processing) := by
  have h := claim_C1_amended [⟨"A", "n", QStatus.queued⟩]
    ⟨fun _ => false, fun _ => false, fun _ => false, fun _ => false⟩
    (by decide) (by decide)
  exact (h.1 ⟨"A", "n", QStatus.processing⟩ (by decide)).1 (by decide)

/-! ### Lemmas about the parsing model -/

theorem digitChar_props (d : Nat) (hd : d < 10) :
    (Char.ofNat (d + 48)).isDigit = true ∧
    (Char.ofNat (d + 48)).toNat - 48 = d ∧ Char.ofNat (d + 48) ≠ ':' := by
  interval_cases d <;> exact ⟨by decide, by decide, by decide⟩

theorem splitOnChar_no_sep (sep : Char) (l : List Char) (h : sep ∉ l) :
    splitOnChar sep l = [l] := by
  induction l with
  | nil => rfl
  | cons c cs ih =>
    have hc : ¬ (c = sep) := fun hce => h (by rw [hce]; exact List.mem_cons_self _ _)
    unfold splitOnChar
    rw [if_neg hc, ih (fun hm => h (List.mem_cons_of_mem c hm))]

theorem splitOnChar_append_sep (sep : Char) (a bs : List Char) (h : sep ∉ a) :
    splitOnChar sep (a ++ sep :: bs) = a :: splitOnChar sep bs := by
  induction a with
  | nil =>
    show splitOnChar sep (sep :: bs) = [] :: splitOnChar sep bs
    conv_lhs => rw [splitOnChar]
    rw [if_pos rfl]
  | cons c cs ih =>
    have hc : ¬ (c = sep) := fun hce => h (by rw [hce]; exact List.mem_cons_self _ _)
    show splitOnChar sep (c :: (cs ++ sep :: bs)) = (c :: cs) :: splitOnChar sep bs
    conv_lhs => rw [splitOnChar]
    rw [if_neg hc, ih (fun hm => h (List.mem_cons_of_mem c hm))]

theorem takeWhile_eq_self_of_all (p : Char → Bool) (l : List Char)
    (h : ∀ c ∈ l, p c = true) : l.takeWhile p = l := by
  induction l with
  | nil => rfl
  | cons c cs ih =>
    rw [List.takeWhile_cons]
    rw [h c (List.mem_cons_self c cs)]
    simp only [if_true]
    rw [ih (fun x hx => h x (List.mem_cons_of_mem c hx))]

theorem foldl_digits_map (l : List Nat) (hl : ∀ d ∈ l, d < 10) :
    ∀ acc, ((l.map (fun d => Char.ofNat (d + 48))).foldl
        (fun n c => n * 10 + (c.toNat - 48)) acc) =
      l.foldl (fun n d => n * 10 + d) acc := by
  induction l with
  | nil => intro acc; rfl
  | cons d ds ih =>
    intro acc
    rw [List.map_cons, List.foldl_cons, List.foldl_cons]
    rw [(digitChar_props d (hl d (List.mem_cons_self d ds))).2.1]
    exact ih (fun x hx => hl x (List.mem_cons_of_mem d hx)) _

theorem foldl_reverse_ofDigits (l : List Nat) :
    ∀ acc, (l.reverse).foldl (fun n d => n * 10 + d) acc =
      acc * 10 ^ l.length + Nat.ofDigits 10 l := by
  induction l with
  | nil => intro acc; simp [Nat.ofDigits]
  | cons d ds ih =>
    intro acc
    rw [List.reverse_cons, List.foldl_append, ih acc]
    simp only [List.foldl_cons, List.foldl_nil, Nat.ofDigits_cons, List.length_cons]
    ring

theorem parseIntDigits_decChars (n : Nat) :
    parseIntDigits (decChars n) = some n := by
  by_cases h0 : n = 0
  · subst h0
    rfl
  · unfold decChars
    rw [if_neg h0]
    have hdig : ∀ d ∈ (Nat.digits 10 n).reverse, d < 10 := fun d hd =>
      Nat.digits_lt_base (by norm_num) (List.mem_reverse.mp hd)
    have htake : (((Nat.digits 10 n).reverse).map
        (fun d => Char.ofNat (d + 48))).takeWhile (fun c => c.isDigit) =
        ((Nat.digits 10 n).reverse).map (fun d => Char.ofNat (d + 48)) := by
      apply takeWhile_eq_self_of_all
      intro c hc
      rcases List.mem_map.mp hc with ⟨d, hd, rfl⟩
      exact (digitChar_props d (hdig d hd)).1
    have hne : ((Nat.digits 10 n).reverse).map
        (fun d => Char.ofNat (d + 48)) ≠ [] := by
      simp [Nat.digits_ne_nil_iff_ne_zero.mpr h0]
    unfold parseIntDigits
    rw [htake, if_neg (fun hh => hne (List.isEmpty_iff.mp hh))]
    rw [foldl_digits_map _ hdig 0]
    rw [foldl_reverse_ofDigits]
    simp [Nat.ofDigits_digits]

theorem colon_not_mem_decChars (n : Nat) : ':' ∉ decChars n := by
  intro hmem
  unfold decChars at hmem
  by_cases h0 : n = 0
  · rw [if_pos h0] at hmem
    exact absurd (List.mem_singleton.mp hmem) (by decide)
  · rw [if_neg h0] at hmem
    rcases List.mem_map.mp hmem with ⟨d, hd, hde⟩
    have hlt : d < 10 := Nat.digits_lt_base (by norm_num) (List.mem_reverse.mp hd)
    exact (digitChar_props d hlt).2.2 hde

/-- Claim C9: the duration string `"m:s"` (canonical decimal renderings of
the integer parts `m` and `s`) parses deterministically to
`(m * 60 + s) * 1000` milliseconds. -/
theorem claim_C9 (m s : Nat) :
    parseDurationMs ⟨decChars m ++ ':' :: decChars s⟩ =
      some ((m * 60 + s) * 1000) := by
  have hdata : (⟨decChars m ++ ':' :: decChars s⟩ : String).data =
      decChars m ++ ':' :: decChars s := rfl
  have hsplit : splitOnChar ':' (decChars m ++ ':' :: decChars s) =
      [decChars m, decChars s] := by
    rw [splitOnChar_append_sep ':' _ _ (colon_not_mem_decChars m),
      splitOnChar_no_sep ':' _ (colon_not_mem_decChars s)]
  simp only [parseDurationMs, hdata, hsplit, parseIntDigits_decChars]

end Musox
